import Mathlib

/-!
# Verification of the Hybrid Retrieval & Constraint Synthesis Engine

Shallow embedding of the retrieval/synthesis kernel
(`apps/kernel/services/retriever.py`, `apps/kernel/services/synthesise.py`,
`apps/kernel/services/evidence.py`, `apps/kernel/modules/embedding.py`,
`scripts/embed_evidence_chunks.py`) into Lean, together with theorems
settling the specification claims.

Python floats are modelled as exact rationals (`ℚ`); the claims under
study do not depend on floating-point rounding, and where a float
comparison gates control flow (the chunker's `target_len * 0.4`) the
model's exact value and the IEEE value agree on every integer input, as
noted at the definition.  External effects (network, database, files)
are modelled as explicit oracle functions carried in a `World`-style
structure, with fallible calls returning `Except`; an invocation log
records which oracles a code path touches.
-/

/-! ## Python string primitives -/

/-- Contiguous-sublist (substring) test on character lists. -/
def listInfixTest (needle : List Char) : List Char → Bool
  | [] => needle.isEmpty
  | c :: t => needle.isPrefixOf (c :: t) || listInfixTest needle t

/-- Python's `k in t` substring test on strings. -/
def pyIn (needle hay : String) : Bool :=
  listInfixTest needle.toList hay.toList

/-- Python's `str.lower()`, modelled character-wise.  (Python lower-cases
the full Unicode range; the texts and keywords in this kernel are ASCII,
where `Char.toLower` agrees with Python.) -/
def pyLower (s : String) : String :=
  String.mk (s.toList.map Char.toLower)

/-- Python truthiness-based `a or b` for optional strings:
`a or b` yields `a` when `a` is a non-`None`, non-empty string, else `b`. -/
def pyOrStr (a : Option String) (b : String) : String :=
  match a with
  | some s => if s = "" then b else s
  | none => b

/-- Python truthiness of an optional string (`if x:`). -/
def pyTruthyStr (a : Option String) : Bool :=
  match a with
  | some s => s ≠ ""
  | none => false

/-- Python truthiness of an optional list (`if x:`). -/
def pyTruthyList (a : Option (List String)) : Bool :=
  match a with
  | some l => l ≠ []
  | none => false

/-- Python `x or 0.0` for an optional float (modelled as `ℚ`):
`None` and `0.0` both yield `0.0`, any other value is returned as is. -/
def pyOrZero (a : Option ℚ) : ℚ :=
  a.getD 0

/-- Python f-string rendering of an optional string: `None` prints as
`"None"`, a string prints as itself. -/
def pyFmtOpt (a : Option String) : String :=
  match a with
  | some s => s
  | none => "None"

/-! ## Synthesiser: constraint classification (`synthesise._classify_constraint`) -/

/-- `_classify_constraint` from `apps/kernel/services/synthesise.py`:
lower-case the text, then test the three keyword groups in source order
(modal obligation, advisory, refusal), defaulting to `"advisory"`. -/
def _classify_constraint (text : String) : String :=
  let t := pyLower text
  if ["must", "required", "shall", "not exceed"].any (fun k => pyIn k t) then "requirement"
  else if ["should", "encouraged", "seek to"].any (fun k => pyIn k t) then "advisory"
  else if ["not permitted", "contrary", "refuse"].any (fun k => pyIn k t) then "conflict"
  else "advisory"

/-- C1 (counterexample): the text `"proposals should be refused"` contains
the refusal keyword `"refuse"` and none of the modal-obligation keywords,
yet the classifier returns `"advisory"`, not `"conflict"`: the advisory
keyword test runs before the refusal test in the code. -/
theorem classify_conflict_counterexample :
    (["not permitted", "contrary", "refuse"].any
        (fun k => pyIn k (pyLower "proposals should be refused")) = true) ∧
    (["must", "required", "shall", "not exceed"].any
        (fun k => pyIn k (pyLower "proposals should be refused")) = false) ∧
    _classify_constraint "proposals should be refused" = "advisory" := by
  refine ⟨by decide, by decide, ?_⟩
  decide

/-- C1 (amended): for every text that contains a refusal keyword and none
of the modal-obligation keywords *and none of the advisory keywords*
(`"should"`, `"encouraged"`, `"seek to"`), the classifier returns
`"conflict"`. -/
theorem classify_conflict_amended (text : String)
    (hconf : ["not permitted", "contrary", "refuse"].any
        (fun k => pyIn k (pyLower text)) = true)
    (hmod : ["must", "required", "shall", "not exceed"].any
        (fun k => pyIn k (pyLower text)) = false)
    (hadv : ["should", "encouraged", "seek to"].any
        (fun k => pyIn k (pyLower text)) = false) :
    _classify_constraint text = "conflict" := by
  unfold _classify_constraint
  simp only [hconf, hmod, hadv]
  rfl

/-- C1 (witness): the amended classification theorem applied to the
concrete text `"applications contrary to the plan"`. -/
theorem classify_conflict_amended_witness :
    _classify_constraint "applications contrary to the plan" = "conflict" :=
  classify_conflict_amended "applications contrary to the plan"
    (by decide) (by decide) (by decide)

/-! ## Embedder (`apps/kernel/modules/embedding.py`) -/

/-- `_DIM_TARGET` (`EMBED_DIM` default): the fixed embedding dimension. -/
def _DIM_TARGET : Nat := 1024

/-- `_pad_or_truncate` from `apps/kernel/modules/embedding.py`: return the
vector unchanged at the target length, truncate when longer, zero-pad when
shorter. -/
def _pad_or_truncate (vec : List ℚ) (dim : Nat) : List ℚ :=
  if vec.length = dim then vec
  else if vec.length > dim then vec.take dim
  else vec ++ List.replicate (dim - vec.length) 0

/-- Python's `\s` whitespace class (ASCII part, as used by `str.split()`
and `str.strip()`). -/
def pyIsSpace (c : Char) : Bool :=
  c = ' ' || c = '\t' || c = '\n' || c = '\r' || c = '\x0b' || c = '\x0c'

/-- Helper for `pySplitList`: accumulates the current token (reversed). -/
def pySplitAux : List Char → List Char → List (List Char)
  | [], acc => if acc.isEmpty then [] else [acc.reverse]
  | c :: t, acc =>
      if pyIsSpace c then
        if acc.isEmpty then pySplitAux t [] else acc.reverse :: pySplitAux t []
      else pySplitAux t (c :: acc)

/-- Python's `str.split()` (no argument): split on runs of whitespace,
dropping empty tokens. -/
def pySplitList (l : List Char) : List (List Char) :=
  pySplitAux l []

/-- `range(0, len(h), 4)` windows of a digest: consecutive 4-byte slices
(`h[i:i+4]`). -/
def chunks4 : List Nat → List (List Nat)
  | [] => []
  | a :: t => ((a :: t).take 4) :: chunks4 ((a :: t).drop 4)
  termination_by l => l.length
  decreasing_by simp [List.length_drop]; omega

/-- `int.from_bytes(h[i:i+4], 'little') / (2**32 - 1)` for one window. -/
def leWindowVal (wnd : List Nat) : ℚ :=
  ((wnd.foldr (fun b acc => b + 256 * acc) 0 : Nat) : ℚ) / (2 ^ 32 - 1)

/-- The per-token accumulation loop of the hash fallback: for every 4-byte
window of the digest, add `val - 0.5` into bucket `(h[i] + h[i+1]) % dim`.
A real SHA-256 digest has exactly 32 bytes, so every window has 4 bytes
and the Python reads `h[i]`, `h[i+1]` are always in range; `getD` returns
those same bytes. -/
def applyDigest (dim : Nat) (out : List ℚ) (h : List Nat) : List ℚ :=
  (chunks4 h).foldl
    (fun o wnd =>
      let idx := (wnd.getD 0 0 + wnd.getD 1 0) % dim
      o.set idx (o.getD idx 0 + (leWindowVal wnd - 1 / 2)))
    out

/-- Oracles consumed by `get_embedding`.  `sha256` is the (fixed,
deterministic) SHA-256 digest of a token's UTF-8 encoding, as a byte
list; `sqrtFn` models IEEE `math.sqrt`, likewise a fixed deterministic
function.  `ollama` and the optional `stModel` encoder may fail
(`Except.error` models a raised exception). -/
structure EmbWorld where
  ollamaConfigured : Bool
  ollama : String → Except Unit (List ℚ)
  stModel : Option (String → Except Unit (List ℚ))
  sha256 : String → List Nat
  sqrtFn : ℚ → ℚ

/-- Tier-3 deterministic hash fallback of `get_embedding`: lower-case and
whitespace-tokenize, accumulate each token's digest windows into a
`_DIM_TARGET`-long bucket vector, then L2-normalize (`norm or 1.0` guards
the zero vector). -/
def hashFallback (w : EmbWorld) (text : String) : List ℚ :=
  let tokens := pySplitList (pyLower text).toList
  let out := tokens.foldl
    (fun o tok => applyDigest _DIM_TARGET o (w.sha256 (String.mk tok)))
    (List.replicate _DIM_TARGET 0)
  let norm0 := w.sqrtFn (out.foldl (fun a v => a + v * v) 0)
  let norm := if norm0 = 0 then 1 else norm0
  out.map (fun v => v / norm)

/-- `get_embedding` from `apps/kernel/modules/embedding.py`: try the
remote provider (an empty returned vector falls through, as does an
exception), then the local model (a load failure or encode exception
falls through), finally the deterministic hash fallback. -/
def get_embedding (w : EmbWorld) (text : String) : List ℚ :=
  let tier1 : Option (List ℚ) :=
    if w.ollamaConfigured then
      match w.ollama text with
      | Except.ok vec => if vec.isEmpty then none else some (_pad_or_truncate vec _DIM_TARGET)
      | Except.error _ => none
    else none
  match tier1 with
  | some v => v
  | none =>
    match w.stModel with
    | some enc =>
      match enc text with
      | Except.ok vec => _pad_or_truncate vec _DIM_TARGET
      | Except.error _ => hashFallback w text
    | none => hashFallback w text

/-- `_pad_or_truncate` always returns a `dim`-long vector. -/
theorem _pad_or_truncate_length (vec : List ℚ) (dim : Nat) :
    (_pad_or_truncate vec dim).length = dim := by
  unfold _pad_or_truncate
  by_cases h1 : vec.length = dim
  · simp [h1]
  · by_cases h2 : vec.length > dim
    · simp [h1, h2, List.length_take]
      omega
    · simp [h1, h2, List.length_append, List.length_replicate]
      omega

/-- A fold whose step preserves list length preserves list length. -/
theorem foldl_length_invariant {α : Type} (f : List ℚ → α → List ℚ)
    (hf : ∀ o a, (f o a).length = o.length) :
    ∀ (l : List α) (o : List ℚ), (l.foldl f o).length = o.length := by
  intro l
  induction l with
  | nil => intro o; rfl
  | cons a t ih => intro o; rw [List.foldl_cons, ih, hf]

/-- `applyDigest` preserves the accumulator's length. -/
theorem applyDigest_length (dim : Nat) (out : List ℚ) (h : List Nat) :
    (applyDigest dim out h).length = out.length := by
  unfold applyDigest
  exact foldl_length_invariant _ (fun o wnd => by simp [List.length_set]) _ out

/-- The hash fallback always returns a `_DIM_TARGET`-long vector. -/
theorem hashFallback_length (w : EmbWorld) (text : String) :
    (hashFallback w text).length = _DIM_TARGET := by
  unfold hashFallback
  simp only [List.length_map]
  rw [foldl_length_invariant _ (fun o tok => applyDigest_length _ o _)]
  simp [List.length_replicate]

/-- C4: for every oracle behaviour (any tier may fail) and every text,
`get_embedding` returns a vector of exactly `_DIM_TARGET = 1024`
elements; `_pad_or_truncate` zero-pads shorter native vectors and
truncates longer ones.  The model is a total function over all worlds,
reflecting that every tier's failure is caught and demoted. -/
theorem get_embedding_dimension (w : EmbWorld) (text : String) :
    (get_embedding w text).length = 1024 ∧
    (∀ (v : List ℚ) (d : Nat), v.length ≤ d →
        _pad_or_truncate v d = v ++ List.replicate (d - v.length) 0) ∧
    (∀ (v : List ℚ) (d : Nat), d < v.length →
        _pad_or_truncate v d = v.take d) := by
  refine ⟨?_, ?_, ?_⟩
  · show (get_embedding w text).length = 1024
    unfold get_embedding
    have hdim : _DIM_TARGET = 1024 := rfl
    by_cases hc : w.ollamaConfigured
    · simp only [hc, if_true]
      cases hv : w.ollama text with
      | ok vec =>
        by_cases he : vec.isEmpty
        · simp only [he, if_true]
          cases hm : w.stModel with
          | some enc =>
            cases henc : enc text with
            | ok v2 => simpa [hdim, henc] using _pad_or_truncate_length v2 _DIM_TARGET
            | error e => simpa [hdim, henc] using hashFallback_length w text
          | none => simpa [hdim] using hashFallback_length w text
        · simp only [he, if_false]
          simpa [hdim] using _pad_or_truncate_length vec _DIM_TARGET
      | error e =>
        cases hm : w.stModel with
        | some enc =>
          cases henc : enc text with
          | ok v2 => simpa [hdim, henc] using _pad_or_truncate_length v2 _DIM_TARGET
          | error e2 => simpa [hdim, henc] using hashFallback_length w text
        | none => simpa [hdim] using hashFallback_length w text
    · simp only [hc, if_false]
      cases hm : w.stModel with
      | some enc =>
        cases henc : enc text with
        | ok v2 => simpa [hdim, henc] using _pad_or_truncate_length v2 _DIM_TARGET
        | error e2 => simpa [hdim, henc] using hashFallback_length w text
      | none => simpa [hdim] using hashFallback_length w text
  · intro v d hle
    unfold _pad_or_truncate
    by_cases h1 : v.length = d
    · simp [h1]
    · have h2 : ¬ v.length > d := by omega
      simp [h1, h2]
  · intro v d hlt
    unfold _pad_or_truncate
    have h1 : v.length ≠ d := by omega
    simp [h1, hlt]

/-- A concrete oracle assignment used by witnesses: the remote provider
succeeds with a 3-element vector, no local model, trivial digest/sqrt. -/
def embWorldExample : EmbWorld where
  ollamaConfigured := true
  ollama := fun _ => Except.ok [1, 2, 3]
  stModel := none
  sha256 := fun _ => List.replicate 32 7
  sqrtFn := fun _ => 1

/-- C4 (witness): the dimension theorem evaluated at a concrete world and
text, and the pad/truncate clauses at concrete vectors. -/
theorem get_embedding_dimension_witness :
    (get_embedding embWorldExample "flood risk").length = 1024 ∧
    _pad_or_truncate [1, 2] 3 = [1, 2, 0] ∧
    _pad_or_truncate [1, 2, 3] 2 = [1, 2] :=
  ⟨(get_embedding_dimension embWorldExample "flood risk").1,
   by
    have h := (get_embedding_dimension embWorldExample "flood risk").2.1 [1, 2] 3 (by decide)
    simpa using h,
   by
    have h := (get_embedding_dimension embWorldExample "flood risk").2.2 [1, 2, 3] 2 (by decide)
    simpa using h⟩

/-- C9: the tier-3 hash fallback factors through the lower-cased
whitespace tokens of the text: any two texts with the same token list
receive element-wise identical vectors.  In particular (taking the two
texts equal) two evaluations on the same text agree; the model's oracles
(`sha256`, `sqrtFn`) are fixed functions, as their real counterparts are
across processes. -/
theorem hashFallback_deterministic (w : EmbWorld) (t₁ t₂ : String)
    (h : pySplitList (pyLower t₁).toList = pySplitList (pyLower t₂).toList) :
    hashFallback w t₁ = hashFallback w t₂ := by
  unfold hashFallback
  rw [h]

/-- C9 (witness): the determinism theorem applied to two texts that
tokenize identically. -/
theorem hashFallback_deterministic_witness :
    pySplitList (pyLower "Flood  Risk").toList =
      pySplitList (pyLower " flood risk ").toList ∧
    hashFallback embWorldExample "Flood  Risk" =
      hashFallback embWorldExample " flood risk " :=
  ⟨by decide, hashFallback_deterministic embWorldExample _ _ (by decide)⟩

/-! ## Retriever (`apps/kernel/services/retriever.py`) -/

/-- Python's `str.strip()` on a character list. -/
def pyStripList (l : List Char) : List Char :=
  ((l.dropWhile pyIsSpace).reverse.dropWhile pyIsSpace).reverse

/-- Python's `str.strip()`. -/
def pyStrip (s : String) : String :=
  String.mk (pyStripList s.toList)

/-- Parsed GeoJSON geometry (`contracts.schemas.GeoJSONGeometry`), opaque
to the retriever: it is only forwarded to the spatial backend. -/
structure SiteGeom where
  gtype : String
  coordinates : String

/-- `contracts.schemas.ChunkItem`. -/
structure ChunkItem where
  chunk_id : String
  policy_id : Option String := none
  policy_title : Option String := none
  para_ref : Option String := none
  text : String
  page : Option Int := none
  score : ℚ
  bm25 : Option ℚ := none
  sim : Option ℚ := none
  tags : Option (List String) := none

/-- One edge of the retriever's KG context (`{src, dst, relation}`). -/
structure KgEdge where
  src : String
  dst : String
  relation : String

/-- `contracts.schemas.GraphContext`. -/
structure GraphContext where
  nodes : List String
  edges : List KgEdge

/-- `contracts.schemas.RetrieveResponse`. -/
structure RetrieveResponse where
  chunks : List ChunkItem
  graph : GraphContext
  designations : Option (List String)

/-- A validated `contracts.schemas.RetrieveRequest` (pydantic guarantees
`top_k ∈ [1, 100]`, so it is carried as a `Nat`). -/
structure RetrieveRequest where
  question : String
  site_geom : Option SiteGeom
  lpa_code : Option String
  top_k : Nat

/-- One policy record of `fixtures/lpa_demo/policy_graph.json`; the
source reads `p.get("references", []) or []`, so an absent or null list
is already collapsed to `[]` here. -/
structure GPolicy where
  id : Option String
  references : List String
  referenced_by : List String

/-- One row of the tier-1 hybrid SQL query
(`pp.id, p.doc_id, p.title, pp.para_ref, pp.text, pp.page, bm25, sim`). -/
structure DbRow where
  rid : Int
  policy_id : Int
  title : Option String
  pref : Option String
  text : String
  page : Option Int
  bm25 : Option ℚ
  sim : Option ℚ

/-- One parsed record of `fixtures/lpa_demo/policy_paras.jsonl`
(`rec.get("text", "")` defaults the text to `""`). -/
structure FixtureRec where
  doc_id : Option String
  para_ref : Option String
  text : String
  page : Option Int

/-- Which external collaborator a code path touched. -/
inductive CallTag where
  | spatialQuery
  | embedCall
  | dbQuery
  | fixtureRead
  | graphRead
deriving DecidableEq

/-- Oracles consumed by `retrieve`: the spatial intersection query and
the hybrid corpus query may fail (`Except.error` models a raised
exception); the two fixture files are `none` when absent, and each
JSONL line is `none` when `json.loads` fails on it.
For `policyGraph`, a missing or unparsable `policy_graph.json` both
yield `{"policies": []}` in the source, so both collapse to `none`. -/
structure World where
  embW : EmbWorld
  spatial : SiteGeom → Except Unit (List String)
  dbHybrid : String → List ℚ → Nat → Except Unit (List DbRow)
  fixtureParas : Option (List (Option FixtureRec))
  policyGraph : Option (List GPolicy)

/-- `_spatial_tags`: no geometry means no query at all; any backend
failure silently falls back to the empty tag list.  The second component
logs whether the spatial backend was invoked. -/
def _spatial_tags (w : World) (site_geom : Option SiteGeom) :
    List String × List CallTag :=
  match site_geom with
  | none => ([], [])
  | some g =>
    match w.spatial g with
    | Except.ok tags => (tags, [CallTag.spatialQuery])
    | Except.error _ => ([], [CallTag.spatialQuery])

/-- `_score_formula`: `0.5*bm25 + 0.4*sim + 0.1*tag_overlap + boosts`
(`boosts` defaults to `0.0` at every call site in the source). -/
def _score_formula (bm25 sim tag_overlap boosts : ℚ) : ℚ :=
  1 / 2 * bm25 + 2 / 5 * sim + 1 / 10 * tag_overlap + boosts

/-- Python `t.split(":")[-1]`: the segment after the last colon (the
whole string when there is no colon). -/
def lastColonSeg (t : String) : String :=
  String.mk ((t.toList.reverse.takeWhile (fun c => c ≠ ':')).reverse)

/-- The `tag_overlap` heuristic shared by both retrieval tiers: count the
designation tags whose last `:`-segment occurs (lower-cased) in the
lower-cased chunk text, then `min(1, hits / 3)`; `0.0` when there are no
tags (`if desig_tags:`). -/
def tagOverlap (desig_tags : List String) (textLow : String) : ℚ :=
  if desig_tags.isEmpty then 0
  else
    let hits := desig_tags.countP (fun t => pyIn (pyLower (lastColonSeg t)) textLow)
    min 1 ((hits : ℚ) / 3)

/-- `desig_tags[:10] or None`. -/
def tagsField (desig_tags : List String) : Option (List String) :=
  if desig_tags.take 10 = [] then none else some (desig_tags.take 10)

/-- Tier-1: build a `ChunkItem` from one hybrid-query row. -/
def rowToChunk (desig_tags : List String) (r : DbRow) : ChunkItem :=
  let tov := tagOverlap desig_tags (pyLower r.text)
  { chunk_id := toString r.rid
    policy_id := some (toString r.policy_id)
    policy_title := r.title
    para_ref := r.pref
    text := r.text
    page := r.page
    score := _score_formula (pyOrZero r.bm25) (pyOrZero r.sim) tov 0
    bm25 := some (pyOrZero r.bm25)
    sim := some (pyOrZero r.sim)
    tags := tagsField desig_tags }

/-- Tier-3: build a `ChunkItem` from one fixture JSONL record, skipping
records with empty text (`if not text: continue`); `bm25` is the binary
any-query-token-present indicator and `sim` its naive proxy. -/
def fixtureLineChunk (q : String) (desig_tags : List String)
    (rec : FixtureRec) : Option ChunkItem :=
  if rec.text = "" then none
  else
    let bm25 : ℚ :=
      if (pySplitList (pyLower q).toList).any
          (fun tok => listInfixTest tok (pyLower rec.text).toList) then 1 else 0
    let sim := bm25
    let tov := tagOverlap desig_tags (pyLower rec.text)
    some
      { chunk_id := pyFmtOpt rec.doc_id ++ ":" ++ pyFmtOpt rec.para_ref
        policy_id := rec.doc_id
        policy_title := rec.doc_id
        para_ref := rec.para_ref
        text := rec.text
        page := rec.page
        score := _score_formula bm25 sim tov 0
        bm25 := some bm25
        sim := some sim
        tags := tagsField desig_tags }

/-- Tier-3 flat scan of the JSONL snapshot: a missing file contributes
nothing, an unparsable line is skipped (`continue`). -/
def fallbackScan (q : String) (desig_tags : List String)
    (fixture : Option (List (Option FixtureRec))) : List ChunkItem :=
  match fixture with
  | none => []
  | some lines => lines.filterMap (fun l => l.bind (fixtureLineChunk q desig_tags))

/-- Python's stable `list.sort(key=lambda c: c.score, reverse=True)`. -/
def chunkSortDesc (l : List ChunkItem) : List ChunkItem :=
  l.mergeSort (fun a b => decide (b.score ≤ a.score))

/-- Python `p.split(".")[0]`: the segment before the first dot. -/
def headBeforeDot (p : String) : String :=
  String.mk (p.toList.takeWhile (fun c => c ≠ '.'))

/-- Python's `sorted(...)` on strings. -/
def pyStrSort (l : List String) : List String :=
  l.mergeSort (fun a b => decide (a ≤ b))

/-- `_kg_neighbors`: expand the fixture policy graph around the wanted
policy ids.  The source's `pid in wanted or any(pid == w for w in
wanted)` is just membership; the node `set` is rendered as
first-occurrence dedup followed by `sorted(...)`. -/
def _kg_neighbors (w : World) (policy_ids : List String) : GraphContext :=
  let data := w.policyGraph.getD []
  let wanted := (policy_ids.filter (fun p => p ≠ "")).map headBeforeDot
  let step := fun (acc : List String × List KgEdge) (p : GPolicy) =>
    match p.id with
    | none => acc
    | some pid =>
      if pid = "" then acc
      else if wanted.contains pid then
        let acc1 := (acc.1 ++ [pid], acc.2)
        let acc2 := p.references.foldl
          (fun a dst => (a.1 ++ [dst], a.2 ++ [⟨pid, dst, "reference"⟩])) acc1
        p.referenced_by.foldl
          (fun a src => (a.1 ++ [src], a.2 ++ [⟨src, pid, "reference"⟩])) acc2
      else acc
  let folded := data.foldl step ([], [])
  { nodes := pyStrSort folded.1.eraseDups, edges := folded.2 }

/-- `[c.policy_id for c in chunks if c.policy_id]` (Python truthiness:
`None` and `""` are skipped). -/
def topPolicyIds (chunks : List ChunkItem) : List String :=
  chunks.filterMap (fun c =>
    match c.policy_id with
    | some s => if s = "" then none else some s
    | none => none)

/-- `retrieve` from `apps/kernel/services/retriever.py`, instrumented
with a log of which collaborators the taken path invoked.  A blank
question returns immediately; otherwise spatial tags are computed
(best-effort), the question is embedded, the tier-1 hybrid query is
attempted, and on its failure the flat fixture scan is sorted by score
and trimmed to `top_k`. -/
def retrieve (w : World) (req : RetrieveRequest) :
    RetrieveResponse × List CallTag :=
  let q := pyStrip req.question
  if q = "" then
    ({ chunks := [], graph := { nodes := [], edges := [] }, designations := some [] }, [])
  else
    let st := _spatial_tags w req.site_geom
    let desig_tags := st.1
    let q_emb := get_embedding w.embW q
    let log2 := st.2 ++ [CallTag.embedCall]
    let cl :=
      match w.dbHybrid q q_emb req.top_k with
      | Except.ok rows => (rows.map (rowToChunk desig_tags), log2 ++ [CallTag.dbQuery])
      | Except.error _ =>
          ((chunkSortDesc (fallbackScan q desig_tags w.fixtureParas)).take req.top_k,
           log2 ++ [CallTag.dbQuery, CallTag.fixtureRead])
    let graph := _kg_neighbors w (topPolicyIds cl.1)
    ({ chunks := cl.1, graph := graph
       designations := if desig_tags = [] then none else some desig_tags },
     cl.2 ++ [CallTag.graphRead])

/-- The raw, unvalidated payload of a `/retrieve` call (`top_k` as sent
by the caller, before pydantic's `ge=1, le=100` check). -/
structure RawRetrieveRequest where
  question : String
  site_geom : Option SiteGeom
  lpa_code : Option String
  top_k : Int

/-- Pydantic validation of `contracts.schemas.RetrieveRequest`:
`question` has `min_length=1`, `top_k` has `ge=1, le=100`. -/
def validateRetrieveRequest (r : RawRetrieveRequest) :
    Except String RetrieveRequest :=
  if r.question.length < 1 then
    Except.error "question: at least 1 character required"
  else if r.top_k < 1 then
    Except.error "top_k: must be greater than or equal to 1"
  else if r.top_k > 100 then
    Except.error "top_k: must be less than or equal to 100"
  else
    Except.ok
      { question := r.question, site_geom := r.site_geom
        lpa_code := r.lpa_code, top_k := r.top_k.toNat }

/-- The `/retrieve` endpoint as seen by a caller: validation, then the
handler (which is total). -/
def retrieveEndpoint (w : World) (r : RawRetrieveRequest) :
    Except String RetrieveResponse :=
  (validateRetrieveRequest r).map (fun req => (retrieve w req).1)

/-- C10: a question that is empty or whitespace-only returns immediately
with an empty chunk list, an empty graph context, and empty
designations, and the invocation log is empty: neither the spatial
backend, nor the embedder, nor the corpus store, nor the fixture files
are touched. -/
theorem retrieve_blank_question (w : World) (req : RetrieveRequest)
    (h : pyStrip req.question = "") :
    retrieve w req =
      ({ chunks := [], graph := { nodes := [], edges := [] }, designations := some [] }, []) := by
  simp [retrieve, h]

/-- Concrete geometry used by witnesses. -/
def siteGeomExample : SiteGeom :=
  { gtype := "Point", coordinates := "[0.1, 51.5]" }

/-- Concrete oracle assignment used by witnesses: the spatial backend and
the hybrid corpus query both fail, the JSONL snapshot has one good line
and one unparsable line, and `policy_graph.json` is absent. -/
def worldExample : World where
  embW := embWorldExample
  spatial := fun _ => Except.error ()
  dbHybrid := fun _ _ _ => Except.error ()
  fixtureParas := some
    [some { doc_id := some "D1", para_ref := some "1.1", text := "flood risk applies", page := none },
     none]
  policyGraph := none

/-- C10 (witness): the blank-question theorem applied to a whitespace
question against the concrete world. -/
theorem retrieve_blank_question_witness :
    retrieve worldExample
        { question := "   ", site_geom := some siteGeomExample, lpa_code := none, top_k := 15 } =
      ({ chunks := [], graph := { nodes := [], edges := [] }, designations := some [] }, []) :=
  retrieve_blank_question worldExample _ (by decide)

/-- C2: the `/retrieve` boundary surfaces an error exactly for inputs
pydantic rejects: any call with `top_k ≤ 0` yields a validation error;
any error implies the input was invalid; and every valid input — under
arbitrary oracle behaviour, including every degradation tier — yields an
`ok` response. -/
theorem retrieve_endpoint_error_iff (w : World) (r : RawRetrieveRequest) :
    (r.top_k ≤ 0 → ∃ msg, retrieveEndpoint w r = Except.error msg) ∧
    (∀ msg, retrieveEndpoint w r = Except.error msg →
        ¬(1 ≤ r.question.length ∧ 1 ≤ r.top_k ∧ r.top_k ≤ 100)) ∧
    ((1 ≤ r.question.length ∧ 1 ≤ r.top_k ∧ r.top_k ≤ 100) →
        ∃ resp, retrieveEndpoint w r = Except.ok resp) := by
  refine ⟨?_, ?_, ?_⟩
  · intro hk
    have h2 : r.top_k < 1 := by omega
    by_cases h1 : r.question.length < 1
    · exact ⟨"question: at least 1 character required",
        by simp [retrieveEndpoint, validateRetrieveRequest, h1, Except.map]⟩
    · exact ⟨"top_k: must be greater than or equal to 1",
        by simp [retrieveEndpoint, validateRetrieveRequest, h1, h2, Except.map]⟩
  · rintro msg hmsg ⟨hq, hk1, hk2⟩
    have h1 : ¬ r.question.length < 1 := by omega
    have h2 : ¬ r.top_k < 1 := by omega
    have h3 : ¬ r.top_k > 100 := by omega
    simp [retrieveEndpoint, validateRetrieveRequest, h1, h2, h3, Except.map] at hmsg
  · rintro ⟨hq, hk1, hk2⟩
    have h1 : ¬ r.question.length < 1 := by omega
    have h2 : ¬ r.top_k < 1 := by omega
    have h3 : ¬ r.top_k > 100 := by omega
    have hok : retrieveEndpoint w r =
        Except.ok ((retrieve w
          (RetrieveRequest.mk r.question r.site_geom r.lpa_code r.top_k.toNat)).1) := by
      simp [retrieveEndpoint, validateRetrieveRequest, h1, h2, h3, Except.map]
    exact ⟨_, hok⟩

/-- C2 (witness): `top_k = 0` is rejected; a valid request against the
all-tiers-failing world still succeeds. -/
theorem retrieve_endpoint_error_iff_witness :
    (∃ msg, retrieveEndpoint worldExample
        { question := "flood", site_geom := none, lpa_code := none, top_k := 0 } =
      Except.error msg) ∧
    (∃ resp, retrieveEndpoint worldExample
        { question := "flood", site_geom := none, lpa_code := none, top_k := 15 } =
      Except.ok resp) :=
  ⟨(retrieve_endpoint_error_iff worldExample _).1 (by decide),
   (retrieve_endpoint_error_iff worldExample _).2.2 ⟨by decide, by decide, by decide⟩⟩

/-- C3: for a non-blank question, a failing spatial backend and a failing
hybrid corpus query do not propagate: the designation tags fall back to
the empty list (rendered as `designations = none` by `tags or None`),
the chunks are exactly the flat fixture scan sorted by descending
heuristic score and trimmed to `top_k`, hence at most `top_k` chunks,
sorted — a ranked result set, not an error. -/
theorem retrieve_degrades_without_error (w : World) (req : RetrieveRequest) (g : SiteGeom)
    (hq : ¬ pyStrip req.question = "")
    (hsite : req.site_geom = some g)
    (hsp : w.spatial g = Except.error ())
    (hdb : ∀ q e k, w.dbHybrid q e k = Except.error ()) :
    (retrieve w req).1.designations = none ∧
    (retrieve w req).1.chunks =
      (chunkSortDesc (fallbackScan (pyStrip req.question) [] w.fixtureParas)).take req.top_k ∧
    (retrieve w req).1.chunks.length ≤ req.top_k ∧
    (retrieve w req).1.chunks.Pairwise (fun a b => b.score ≤ a.score) := by
  have hmain : (retrieve w req).1 =
      { chunks := (chunkSortDesc (fallbackScan (pyStrip req.question) [] w.fixtureParas)).take req.top_k
        graph := _kg_neighbors w (topPolicyIds
          ((chunkSortDesc (fallbackScan (pyStrip req.question) [] w.fixtureParas)).take req.top_k))
        designations := none } := by
    simp [retrieve, hq, hsite, _spatial_tags, hsp, hdb]
  refine ⟨by rw [hmain], by rw [hmain], ?_, ?_⟩
  · rw [hmain]
    simp only [List.length_take]
    exact inf_le_left
  · rw [hmain]
    have hsorted : (chunkSortDesc (fallbackScan (pyStrip req.question) [] w.fixtureParas)).Pairwise
        (fun a b => decide (b.score ≤ a.score) = true) :=
      List.sorted_mergeSort
        (by
          intro a b c hab hbc
          simp only [decide_eq_true_eq] at *
          exact le_trans hbc hab)
        (by
          intro a b
          simp only [Bool.or_eq_true, decide_eq_true_eq]
          exact le_total b.score a.score)
        (fallbackScan (pyStrip req.question) [] w.fixtureParas)
    exact (List.Pairwise.sublist (List.take_sublist _ _) hsorted).imp
      (fun h => of_decide_eq_true h)

/-- Concrete validated request used by the C3 witness. -/
def reqExample : RetrieveRequest :=
  { question := "flood", site_geom := some siteGeomExample, lpa_code := none, top_k := 15 }

/-- C3 (witness): the degradation theorem applied to the concrete world
whose spatial backend and corpus query both fail. -/
theorem retrieve_degrades_without_error_witness :
    (retrieve worldExample reqExample).1.designations = none ∧
    (retrieve worldExample reqExample).1.chunks =
      (chunkSortDesc (fallbackScan (pyStrip reqExample.question) [] worldExample.fixtureParas)).take
        reqExample.top_k ∧
    (retrieve worldExample reqExample).1.chunks.length ≤ reqExample.top_k ∧
    (retrieve worldExample reqExample).1.chunks.Pairwise (fun a b => b.score ≤ a.score) :=
  retrieve_degrades_without_error worldExample reqExample siteGeomExample
    (by decide) rfl rfl (fun _ _ _ => rfl)

/-! ## Synthesiser (`apps/kernel/services/synthesise.py`) -/

/-- `contracts.schemas.ConstraintItem` (the `type` field is renamed
`ctype`: `type` is a Lean keyword). -/
structure ConstraintItem where
  ctype : String
  title : String
  clause : Option String
  source_policy : Option String
  certainty : ℚ
  why : String
  refs : List String

/-- Build one `ConstraintItem` from a ranked chunk, as in the body of the
`synthesise` loop: clamped certainty `min(1, max(0.2, 0.6*sim + 0.3*bm25
+ 0.1))` and the `"; "`-joined `why` rationale. -/
def mkConstraintItem (ch : ChunkItem) (kind : String) : ConstraintItem :=
  let certainty := min 1 (max (1 / 5) (3 / 5 * pyOrZero ch.sim + 3 / 10 * pyOrZero ch.bm25 + 1 / 10))
  let why :=
    (if pyTruthyList ch.tags then
      ["site overlaps: " ++ String.intercalate ", " ((ch.tags.getD []).take 3)] else []) ++
    (if pyTruthyStr ch.para_ref then ["clause " ++ pyFmtOpt ch.para_ref] else []) ++
    ["relevant text match"]
  { ctype := kind
    title := pyOrStr ch.policy_title (pyOrStr ch.policy_id "policy")
    clause := ch.para_ref
    source_policy := ch.policy_id
    certainty := certainty
    why := String.intercalate "; " why
    refs := [ch.chunk_id] }

/-- The first loop's `seen` key: `(kind, ch.para_ref or ch.chunk_id)`. -/
def chunkSeenKey (ch : ChunkItem) : String × String :=
  (_classify_constraint ch.text, pyOrStr ch.para_ref ch.chunk_id)

/-- The first loop of `synthesise`: classify each chunk and keep the
first chunk per `(kind, para_ref-or-chunk_id)` key (`seen` set). -/
def buildConstraints : List ChunkItem → List (String × String) → List ConstraintItem
  | [], _ => []
  | ch :: rest, seen =>
    let key := chunkSeenKey ch
    if key ∈ seen then buildConstraints rest seen
    else mkConstraintItem ch key.1 :: buildConstraints rest (key :: seen)

/-- The second dedup's key: the f-string `f"{c.type}:{c.source_policy}:{c.clause}"`
(Python renders `None` as `"None"`). -/
def constraintKey (c : ConstraintItem) : String :=
  c.ctype ++ ":" ++ pyFmtOpt c.source_policy ++ ":" ++ pyFmtOpt c.clause

/-- The second dedup of `synthesise`: an insertion-ordered dict keyed by
`constraintKey`, kept only on first occurrence; `list(dedup.values())`
is then the first occurrence of each key, in input order. -/
def dedupConstraints : List ConstraintItem → List String → List ConstraintItem
  | [], _ => []
  | c :: rest, seen =>
    if constraintKey c ∈ seen then dedupConstraints rest seen
    else c :: dedupConstraints rest (constraintKey c :: seen)

/-- The pure core of the `/synthesise` endpoint after retrieval: build
constraints from the ranked chunks, dedup, then truncate to `top_k`
(`constraints[: req.top_k]`; the validated `top_k` is ≥ 1). -/
def synthesiseCore (chunks : List ChunkItem) (top_k : Nat) : List ConstraintItem :=
  (dedupConstraints (buildConstraints chunks []) []).take top_k

/-- `dedupConstraints` only drops elements, preserving order. -/
theorem dedupConstraints_sublist (cs : List ConstraintItem) :
    ∀ seen, (dedupConstraints cs seen).Sublist cs := by
  induction cs with
  | nil => intro seen; simp [dedupConstraints]
  | cons c rest ih =>
    intro seen
    unfold dedupConstraints
    by_cases h : constraintKey c ∈ seen
    · simp only [h, if_true]
      exact (ih seen).cons c
    · simp only [h, if_false]
      exact (ih (constraintKey c :: seen)).cons₂ c

/-- No element surviving `dedupConstraints` has a key already in `seen`. -/
theorem dedupConstraints_key_not_seen (cs : List ConstraintItem) :
    ∀ seen c, c ∈ dedupConstraints cs seen → constraintKey c ∉ seen := by
  induction cs with
  | nil => intro seen c hc; simp [dedupConstraints] at hc
  | cons x rest ih =>
    intro seen c hc
    unfold dedupConstraints at hc
    by_cases h : constraintKey x ∈ seen
    · simp only [h, if_true] at hc
      exact ih seen c hc
    · simp only [h, if_false] at hc
      rcases List.mem_cons.mp hc with rfl | hc'
      · exact h
      · intro habs
        exact ih _ c hc' (List.mem_cons_of_mem _ habs)

/-- The surviving constraints have pairwise distinct keys. -/
theorem dedupConstraints_pairwise (cs : List ConstraintItem) :
    ∀ seen, (dedupConstraints cs seen).Pairwise
      (fun a b => constraintKey a ≠ constraintKey b) := by
  induction cs with
  | nil => intro seen; simp [dedupConstraints]
  | cons x rest ih =>
    intro seen
    unfold dedupConstraints
    by_cases h : constraintKey x ∈ seen
    · simp only [h, if_true]
      exact ih seen
    · simp only [h, if_false]
      refine List.Pairwise.cons ?_ (ih _)
      intro b hb hkey
      have := dedupConstraints_key_not_seen rest _ b hb
      exact this (by rw [← hkey]; exact List.mem_cons_self _ _)

/-- Every survivor is the first element of the input with its key. -/
theorem dedupConstraints_first_wins (cs : List ConstraintItem) :
    ∀ seen c, c ∈ dedupConstraints cs seen →
      cs.find? (fun d => constraintKey d == constraintKey c) = some c := by
  induction cs with
  | nil => intro seen c hc; simp [dedupConstraints] at hc
  | cons x rest ih =>
    intro seen c hc
    unfold dedupConstraints at hc
    by_cases h : constraintKey x ∈ seen
    · simp only [h, if_true] at hc
      have hne : constraintKey x ≠ constraintKey c := by
        intro heq
        exact dedupConstraints_key_not_seen rest seen c hc (heq ▸ h)
      rw [List.find?_cons_of_neg _ (by simpa using hne)]
      exact ih seen c hc
    · simp only [h, if_false] at hc
      rcases List.mem_cons.mp hc with rfl | hc'
      · exact List.find?_cons_of_pos _ (by simp)
      · have hnotin := dedupConstraints_key_not_seen rest _ c hc'
        have hne : constraintKey x ≠ constraintKey c := by
          intro heq
          exact hnotin (heq ▸ List.mem_cons_self _ _)
        rw [List.find?_cons_of_neg _ (by simpa using hne)]
        exact ih _ c hc'

/-- C5: `synthesise` truncates only after deduplication; the result has
at most `top_k` items; no two returned constraints share the
`(type, source_policy, clause)` key; the dedup pass is order-preserving
(a sublist of the built constraints, never re-sorted); and each
surviving constraint is the *first* occurrence of its key in ranked
order. -/
theorem synthesise_dedup_spec (chunks : List ChunkItem) (k : Nat) :
    synthesiseCore chunks k =
      (dedupConstraints (buildConstraints chunks []) []).take k ∧
    (synthesiseCore chunks k).length ≤ k ∧
    (synthesiseCore chunks k).Pairwise
      (fun a b => ¬(a.ctype = b.ctype ∧ a.source_policy = b.source_policy ∧
        a.clause = b.clause)) ∧
    (dedupConstraints (buildConstraints chunks []) []).Sublist (buildConstraints chunks []) ∧
    (∀ c ∈ dedupConstraints (buildConstraints chunks []) [],
      (buildConstraints chunks []).find?
        (fun d => constraintKey d == constraintKey c) = some c) := by
  refine ⟨rfl, ?_, ?_, dedupConstraints_sublist _ [], fun c hc => dedupConstraints_first_wins _ [] c hc⟩
  · unfold synthesiseCore
    rw [List.length_take]
    exact inf_le_left
  · have hpw := dedupConstraints_pairwise (buildConstraints chunks []) []
    have htake : (synthesiseCore chunks k).Pairwise
        (fun a b => constraintKey a ≠ constraintKey b) :=
      List.Pairwise.sublist (List.take_sublist _ _) hpw
    refine htake.imp ?_
    intro a b hne ⟨h1, h2, h3⟩
    exact hne (by unfold constraintKey; rw [h1, h2, h3])

/-- Chunks used by the C5 witness: both have no paragraph reference and
the same policy, so they survive the first loop (distinct chunk ids) but
collide in the second dedup. -/
def chunksExample : List ChunkItem :=
  [{ chunk_id := "D1:0", policy_id := some "D1", text := "development must provide",
     score := 1, bm25 := some 1, sim := some 1 },
   { chunk_id := "D1:1", policy_id := some "D1", text := "schemes must include",
     score := 1, bm25 := some (1 / 2), sim := some (1 / 2) }]

/-- C5 (witness): the dedup/truncation theorem at a concrete chunk list
and `top_k = 5`. -/
theorem synthesise_dedup_spec_witness :
    synthesiseCore chunksExample 5 =
      (dedupConstraints (buildConstraints chunksExample []) []).take 5 ∧
    (synthesiseCore chunksExample 5).length ≤ 5 ∧
    (synthesiseCore chunksExample 5).Pairwise
      (fun a b => ¬(a.ctype = b.ctype ∧ a.source_policy = b.source_policy ∧
        a.clause = b.clause)) ∧
    (dedupConstraints (buildConstraints chunksExample []) []).Sublist
      (buildConstraints chunksExample []) ∧
    (∀ c ∈ dedupConstraints (buildConstraints chunksExample []) [],
      (buildConstraints chunksExample []).find?
        (fun d => constraintKey d == constraintKey c) = some c) :=
  synthesise_dedup_spec chunksExample 5

/-! ## Evidence service (`apps/kernel/services/evidence.py`) -/

/-- A `policy` table row (columns used here). -/
structure Policy where
  id : Int
  title : String

/-- An `evidence` table row (columns used here; `year` is nullable). -/
structure Evidence where
  id : Int
  title : String
  etype : String
  year : Option Int

/-- An `evidence_policy_link` table row. -/
structure EvidencePolicyLink where
  lid : Int
  evidence_id : Int
  policy_id : Int
  strength : String
  rationale : String

/-- The read snapshot the evidence endpoints query.  `nowYear` is
`EXTRACT(YEAR FROM NOW())`.  `policy.id` is the table's primary key, so
at most one policy row exists per id; the `GROUP BY p.id, p.title`
aggregates are modelled per distinct `(id, title)` pair. -/
structure DbState where
  policies : List Policy
  evidence : List Evidence
  links : List EvidencePolicyLink
  nowYear : Int

/-- All link rows of one policy id. -/
def linksFor (st : DbState) (pid : Int) : List EvidencePolicyLink :=
  st.links.filter (fun l => l.policy_id = pid)

/-- First-occurrence deduplication, seeded with an already-seen set
(order of the `seen` accumulator is irrelevant, only membership is
used). -/
def firstSeenFrom {α : Type} [DecidableEq α] : List α → List α → List α
  | _, [] => []
  | seen, a :: t =>
    if a ∈ seen then firstSeenFrom seen t else a :: firstSeenFrom (a :: seen) t

/-- `{"policy_id", "title"}` rows of the `no_evidence` query. -/
structure GapPolicyRow where
  policy_id : Int
  title : String

/-- `{"policy_id", "title", "latest_year"}` rows of the `stale_evidence`
query. -/
structure GapStaleRow where
  policy_id : Int
  title : String
  latest_year : Int

/-- `{"policy_id", "title", "link_count"}` rows of the `weak_links_only`
query. -/
structure GapWeakRow where
  policy_id : Int
  title : String
  link_count : Nat

/-- The `/gaps` response. -/
structure GapReport where
  no_evidence : List GapPolicyRow
  stale_evidence : List GapStaleRow
  weak_links_only : List GapWeakRow

/-- Query 1 (`LEFT JOIN ... WHERE epl.id IS NULL`): one row per policy
row with zero link rows. -/
def noEvidenceRows (st : DbState) : List GapPolicyRow :=
  (st.policies.filter (fun p => (linksFor st p.id).isEmpty)).map (fun p => ⟨p.id, p.title⟩)

/-- The non-null years of the evidence joined to one policy id
(`JOIN epl JOIN evidence`); SQL `MAX` ignores nulls. -/
def joinedYears (st : DbState) (pid : Int) : List Int :=
  (linksFor st pid).flatMap (fun l =>
    (st.evidence.filter (fun e => e.id = l.evidence_id)).filterMap (fun e => e.year))

/-- Query 2: policies (grouped by `(id, title)`) whose joined evidence
has a non-null maximum year older than `nowYear - 5`.  A group with no
joined row, or whose years are all null, has `MAX(e.year)` null and
fails the `HAVING` comparison. -/
def staleEvidenceRows (st : DbState) : List GapStaleRow :=
  (firstSeenFrom [] (st.policies.map (fun p => (p.id, p.title)))).filterMap (fun k =>
    match (joinedYears st k.1).max? with
    | some y => if y < st.nowYear - 5 then some ⟨k.1, k.2, y⟩ else none
    | none => none)

/-- Query 3: policies (grouped by `(id, title)`) having at least one
`tangential` link (the `JOIN ... WHERE strength = 'tangential'` group
exists) whose tangential-link count equals their total link count. -/
def weakLinksRows (st : DbState) : List GapWeakRow :=
  (firstSeenFrom [] (st.policies.map (fun p => (p.id, p.title)))).filterMap (fun k =>
    let tang := (linksFor st k.1).filter (fun l => l.strength = "tangential")
    if tang.length ≠ 0 ∧ tang.length = (linksFor st k.1).length then
      some ⟨k.1, k.2, tang.length⟩
    else none)

/-- `evidence_gaps` (`GET /gaps`): the three queries over one snapshot. -/
def evidence_gaps (st : DbState) : GapReport :=
  ⟨noEvidenceRows st, staleEvidenceRows st, weakLinksRows st⟩

/-- Members of `stale_evidence` have at least one link row. -/
theorem staleEvidenceRows_has_link (st : DbState) (b : GapStaleRow)
    (hb : b ∈ (evidence_gaps st).stale_evidence) :
    ∃ l ∈ st.links, l.policy_id = b.policy_id := by
  rcases List.mem_filterMap.mp hb with ⟨k, _, hk⟩
  rcases hmax : (joinedYears st k.1).max? with _ | y
  · rw [hmax] at hk; simp at hk
  · rw [hmax] at hk
    dsimp only at hk
    split_ifs at hk with hy
    · have hpid : k.1 = b.policy_id := by
        have := Option.some.inj hk
        rw [← this]
      have hmem : y ∈ joinedYears st k.1 := List.max?_mem (fun a b => max_choice a b) hmax
      rcases List.mem_flatMap.mp hmem with ⟨l, hl, _⟩
      have hl' := List.mem_filter.mp hl
      exact ⟨l, hl'.1, by simpa [hpid] using of_decide_eq_true hl'.2⟩

/-- Members of `weak_links_only` have at least one link row. -/
theorem weakLinksRows_has_link (st : DbState) (b : GapWeakRow)
    (hb : b ∈ (evidence_gaps st).weak_links_only) :
    ∃ l ∈ st.links, l.policy_id = b.policy_id := by
  rcases List.mem_filterMap.mp hb with ⟨k, _, hk⟩
  simp only [weakLinksRows] at hk
  split_ifs at hk with hc
  have hpid : k.1 = b.policy_id := by
    have := Option.some.inj hk
    rw [← this]
  rcases hl : (linksFor st k.1).filter (fun l => l.strength = "tangential") with _ | ⟨l, rest⟩
  · exact absurd (by simp [hl]) hc.1
  · have hmem : l ∈ (linksFor st k.1).filter (fun l => l.strength = "tangential") := by
      rw [hl]; exact List.mem_cons_self _ _
    have hl' := List.mem_filter.mp hmem
    have hl'' := List.mem_filter.mp hl'.1
    exact ⟨l, hl''.1, by simpa [hpid] using of_decide_eq_true hl''.2⟩

/-- Members of `no_evidence` have no link row at all. -/
theorem noEvidenceRows_no_link (st : DbState) (a : GapPolicyRow)
    (ha : a ∈ (evidence_gaps st).no_evidence) :
    ∀ l ∈ st.links, l.policy_id ≠ a.policy_id := by
  rcases List.mem_map.mp ha with ⟨p, hp, hpa⟩
  have hp' := List.mem_filter.mp hp
  intro l hl hlid
  have hnil : linksFor st p.id = [] := List.isEmpty_iff.mp hp'.2
  have hmem : l ∈ linksFor st p.id := by
    apply List.mem_filter.mpr
    refine ⟨hl, decide_eq_true ?_⟩
    rw [hlid, ← hpa]
  rw [hnil] at hmem
  exact absurd hmem (List.not_mem_nil l)

/-- C6: for every link-table state, `no_evidence` is disjoint from both
`stale_evidence` and `weak_links_only` (by policy id): every policy in
`stale_evidence` or `weak_links_only` has at least one link row, every
policy in `no_evidence` has none, so a policy with zero link rows can
appear only in `no_evidence`. -/
theorem evidence_gaps_disjoint (st : DbState) :
    (∀ a ∈ (evidence_gaps st).no_evidence, ∀ b ∈ (evidence_gaps st).stale_evidence,
       a.policy_id ≠ b.policy_id) ∧
    (∀ a ∈ (evidence_gaps st).no_evidence, ∀ b ∈ (evidence_gaps st).weak_links_only,
       a.policy_id ≠ b.policy_id) ∧
    (∀ b ∈ (evidence_gaps st).stale_evidence, ∃ l ∈ st.links, l.policy_id = b.policy_id) ∧
    (∀ b ∈ (evidence_gaps st).weak_links_only, ∃ l ∈ st.links, l.policy_id = b.policy_id) ∧
    (∀ a ∈ (evidence_gaps st).no_evidence, ∀ l ∈ st.links, l.policy_id ≠ a.policy_id) := by
  refine ⟨?_, ?_, staleEvidenceRows_has_link st, weakLinksRows_has_link st,
    noEvidenceRows_no_link st⟩
  · intro a ha b hb heq
    rcases staleEvidenceRows_has_link st b hb with ⟨l, hl, hlid⟩
    exact noEvidenceRows_no_link st a ha l hl (by rw [hlid, heq])
  · intro a ha b hb heq
    rcases weakLinksRows_has_link st b hb with ⟨l, hl, hlid⟩
    exact noEvidenceRows_no_link st a ha l hl (by rw [hlid, heq])

/-- The spec's gap-analysis scenario: `P1` has no links, `P2` one link to
evidence from 2010, `P3` two links both `tangential`; "now" is 2024. -/
def gapScenario : DbState where
  policies := [⟨1, "P1"⟩, ⟨2, "P2"⟩, ⟨3, "P3"⟩]
  evidence :=
    [⟨10, "E2010", "survey", some 2010⟩,
     ⟨11, "Ea", "study", some 2023⟩,
     ⟨12, "Eb", "study", some 2023⟩]
  links :=
    [⟨100, 10, 2, "core", "r1"⟩,
     ⟨101, 11, 3, "tangential", "r2"⟩,
     ⟨102, 12, 3, "tangential", "r3"⟩]
  nowYear := 2024

/-- C6 (witness): the disjointness theorem at the spec's scenario
state. -/
theorem evidence_gaps_disjoint_witness :
    (∀ a ∈ (evidence_gaps gapScenario).no_evidence,
       ∀ b ∈ (evidence_gaps gapScenario).stale_evidence, a.policy_id ≠ b.policy_id) ∧
    (∀ a ∈ (evidence_gaps gapScenario).no_evidence,
       ∀ b ∈ (evidence_gaps gapScenario).weak_links_only, a.policy_id ≠ b.policy_id) ∧
    (∀ b ∈ (evidence_gaps gapScenario).stale_evidence,
       ∃ l ∈ gapScenario.links, l.policy_id = b.policy_id) ∧
    (∀ b ∈ (evidence_gaps gapScenario).weak_links_only,
       ∃ l ∈ gapScenario.links, l.policy_id = b.policy_id) ∧
    (∀ a ∈ (evidence_gaps gapScenario).no_evidence,
       ∀ l ∈ gapScenario.links, l.policy_id ≠ a.policy_id) :=
  evidence_gaps_disjoint gapScenario

/-- One row of the `get_dependency_graph` join
(`e.id, e.title, e.type, p.id, p.title, epl.strength, epl.rationale`). -/
structure DepRow where
  e_id : Int
  e_title : String
  e_type : String
  p_id : Int
  p_title : String
  strength : String
  rationale : String

/-- A node of the dependency graph: `{"id", "label", "type"}` plus
`"subtype"` on evidence nodes (the `type` key is rendered `ntype`). -/
structure DepNode where
  id : String
  label : String
  ntype : String
  subtype : Option String

/-- An edge of the dependency graph: `{"from", "to", "strength",
"rationale"}` (`from` is a Lean keyword, rendered `src`/`dst`). -/
structure DepEdge where
  src : String
  dst : String
  strength : String
  rationale : String

/-- The `{"nodes", "edges"}` response of `/graph/dependencies`. -/
structure DepGraph where
  nodes : List DepNode
  edges : List DepEdge

/-- The evidence node a row contributes: id `e<id>`, label `e.title`,
subtype `e.type`. -/
def depENode (r : DepRow) : DepNode :=
  { id := "e" ++ toString r.e_id, label := r.e_title, ntype := "evidence",
    subtype := some r.e_type }

/-- The policy node a row contributes: id `p<id>`, label `p.title`. -/
def depPNode (r : DepRow) : DepNode :=
  { id := "p" ++ toString r.p_id, label := r.p_title, ntype := "policy", subtype := none }

/-- The edge a row contributes. -/
def depEdge (r : DepRow) : DepEdge :=
  { src := "e" ++ toString r.e_id, dst := "p" ++ toString r.p_id,
    strength := r.strength, rationale := r.rationale }

/-- The row loop of `get_dependency_graph`: per row, append the evidence
node unless its raw id is in `seen_evidence`, append the policy node
unless its raw id is in `seen_policy`, and always append the edge.  The
two independent `if`s of the source are flattened into four branches;
the `seen` sets grow by insertion (accumulator order is irrelevant, only
membership is used). -/
def depGraphAux : List DepRow → List DepNode → List DepEdge → List Int → List Int → DepGraph
  | [], nodes, edges, _, _ => ⟨nodes, edges⟩
  | r :: rest, nodes, edges, seenE, seenP =>
    if r.e_id ∈ seenE then
      if r.p_id ∈ seenP then
        depGraphAux rest nodes (edges ++ [depEdge r]) seenE seenP
      else
        depGraphAux rest (nodes ++ [depPNode r]) (edges ++ [depEdge r]) seenE (r.p_id :: seenP)
    else
      if r.p_id ∈ seenP then
        depGraphAux rest (nodes ++ [depENode r]) (edges ++ [depEdge r]) (r.e_id :: seenE) seenP
      else
        depGraphAux rest (nodes ++ [depENode r] ++ [depPNode r]) (edges ++ [depEdge r])
          (r.e_id :: seenE) (r.p_id :: seenP)

/-- `get_dependency_graph`'s graph construction from the joined rows: a
pure (read-only) function of the row sequence. -/
def get_dependency_graph_rows (rows : List DepRow) : DepGraph :=
  depGraphAux rows [] [] [] []

/-- The join feeding `get_dependency_graph`, including the Python
truthiness filters (`if policy_id:` — a `0` or absent id disables its
filter clause). -/
def dependencyRows (st : DbState) (policy_id evidence_id : Option Int) : List DepRow :=
  let lks := st.links.filter (fun l =>
    (match policy_id with
     | some pid => if pid = 0 then true else decide (l.policy_id = pid)
     | none => true) &&
    (match evidence_id with
     | some eid => if eid = 0 then true else decide (l.evidence_id = eid)
     | none => true))
  lks.flatMap (fun l =>
    (st.evidence.filter (fun e => e.id = l.evidence_id)).flatMap (fun e =>
      (st.policies.filter (fun p => p.id = l.policy_id)).map (fun p =>
        ⟨e.id, e.title, e.etype, p.id, p.title, l.strength, l.rationale⟩)))

/-- The edge list is exactly one edge per input row, in row order. -/
theorem depGraphAux_edges (rows : List DepRow) :
    ∀ nodes edges seenE seenP,
      (depGraphAux rows nodes edges seenE seenP).edges = edges ++ rows.map depEdge := by
  induction rows with
  | nil => intro nodes edges seenE seenP; simp [depGraphAux]
  | cons r rest ih =>
    intro nodes edges seenE seenP
    unfold depGraphAux
    by_cases he : r.e_id ∈ seenE <;> by_cases hp : r.p_id ∈ seenP <;>
      simp [he, hp, ih, List.append_assoc]

/-- The evidence-node ids accumulate in first-seen order of the raw
evidence ids not yet in `seenE`. -/
theorem depGraphAux_enodes (rows : List DepRow) :
    ∀ nodes edges seenE seenP,
      ((depGraphAux rows nodes edges seenE seenP).nodes.filter
          (fun n => n.ntype == "evidence")).map (fun n => n.id) =
        (nodes.filter (fun n => n.ntype == "evidence")).map (fun n => n.id) ++
          (firstSeenFrom seenE (rows.map (fun r => r.e_id))).map
            (fun i => "e" ++ toString i) := by
  induction rows with
  | nil => intro nodes edges seenE seenP; simp [depGraphAux, firstSeenFrom]
  | cons r rest ih =>
    intro nodes edges seenE seenP
    unfold depGraphAux
    by_cases he : r.e_id ∈ seenE <;> by_cases hp : r.p_id ∈ seenP <;>
      simp [he, hp, ih, firstSeenFrom, List.filter_append, depENode, depPNode,
        List.append_assoc]

/-- The policy-node ids accumulate in first-seen order of the raw policy
ids not yet in `seenP`. -/
theorem depGraphAux_pnodes (rows : List DepRow) :
    ∀ nodes edges seenE seenP,
      ((depGraphAux rows nodes edges seenE seenP).nodes.filter
          (fun n => n.ntype == "policy")).map (fun n => n.id) =
        (nodes.filter (fun n => n.ntype == "policy")).map (fun n => n.id) ++
          (firstSeenFrom seenP (rows.map (fun r => r.p_id))).map
            (fun i => "p" ++ toString i) := by
  induction rows with
  | nil => intro nodes edges seenE seenP; simp [depGraphAux, firstSeenFrom]
  | cons r rest ih =>
    intro nodes edges seenE seenP
    unfold depGraphAux
    by_cases he : r.e_id ∈ seenE <;> by_cases hp : r.p_id ∈ seenP <;>
      simp [he, hp, ih, firstSeenFrom, List.filter_append, depENode, depPNode,
        List.append_assoc]

/-- `firstSeenFrom` yields no element of the seed. -/
theorem firstSeenFrom_not_seen {α : Type} [DecidableEq α] (l : List α) :
    ∀ (seen : List α) (a : α), a ∈ firstSeenFrom seen l → a ∉ seen := by
  induction l with
  | nil => intro seen a ha; simp [firstSeenFrom] at ha
  | cons b t ih =>
    intro seen a ha
    unfold firstSeenFrom at ha
    by_cases hb : b ∈ seen
    · simp only [hb, if_true] at ha
      exact ih seen a ha
    · simp only [hb, if_false] at ha
      rcases List.mem_cons.mp ha with rfl | ha'
      · exact hb
      · intro habs
        exact ih _ a ha' (List.mem_cons_of_mem _ habs)

/-- `firstSeenFrom` has no duplicates. -/
theorem firstSeenFrom_nodup {α : Type} [DecidableEq α] (l : List α) :
    ∀ seen : List α, (firstSeenFrom seen l).Nodup := by
  induction l with
  | nil => intro seen; simp [firstSeenFrom]
  | cons b t ih =>
    intro seen
    unfold firstSeenFrom
    by_cases hb : b ∈ seen
    · simp only [hb, if_true]
      exact ih seen
    · simp only [hb, if_false]
      refine List.nodup_cons.mpr ⟨?_, ih _⟩
      intro habs
      exact firstSeenFrom_not_seen t _ b habs (List.mem_cons_self _ _)

/-- Membership in `firstSeenFrom`: exactly the elements of the list not
already in the seed. -/
theorem mem_firstSeenFrom {α : Type} [DecidableEq α] (l : List α) :
    ∀ (seen : List α) (a : α), a ∈ firstSeenFrom seen l ↔ a ∈ l ∧ a ∉ seen := by
  induction l with
  | nil => intro seen a; simp [firstSeenFrom]
  | cons b t ih =>
    intro seen a
    unfold firstSeenFrom
    by_cases hb : b ∈ seen
    · simp only [hb, if_true]
      rw [ih]
      constructor
      · rintro ⟨hat, hns⟩
        exact ⟨List.mem_cons_of_mem _ hat, hns⟩
      · rintro ⟨hab, hns⟩
        rcases List.mem_cons.mp hab with rfl | hat
        · exact absurd hb hns
        · exact ⟨hat, hns⟩
    · simp only [hb, if_false]
      constructor
      · intro ha
        rcases List.mem_cons.mp ha with rfl | ha'
        · exact ⟨List.mem_cons_self _ _, hb⟩
        · have := (ih _ a).mp ha'
          refine ⟨List.mem_cons_of_mem _ this.1, fun habs => this.2 (List.mem_cons_of_mem _ habs)⟩
      · rintro ⟨hab, hns⟩
        rcases List.mem_cons.mp hab with rfl | hat
        · exact List.mem_cons_self _ _
        · by_cases hba : a = b
          · subst hba; exact List.mem_cons_self _ _
          · exact List.mem_cons_of_mem _ ((ih _ a).mpr ⟨hat, by
              intro habs
              rcases List.mem_cons.mp habs with h | h
              · exact hba h
              · exact hns h⟩)

/-- C7: for every joined row sequence, the dependency graph has exactly
one edge (`from = e<id>`, `to = p<id>`, strength, rationale) per row in
row order; its evidence-node ids are exactly the distinct raw evidence
ids in first-seen order (so one `e<id>` node per distinct id), likewise
its policy-node ids; and the construction is a pure function of the
rows (read-only). -/
theorem dependency_graph_spec (rows : List DepRow) :
    (get_dependency_graph_rows rows).edges = rows.map depEdge ∧
    ((get_dependency_graph_rows rows).nodes.filter
        (fun n => n.ntype == "evidence")).map (fun n => n.id) =
      (firstSeenFrom [] (rows.map (fun r => r.e_id))).map (fun i => "e" ++ toString i) ∧
    ((get_dependency_graph_rows rows).nodes.filter
        (fun n => n.ntype == "policy")).map (fun n => n.id) =
      (firstSeenFrom [] (rows.map (fun r => r.p_id))).map (fun i => "p" ++ toString i) ∧
    (firstSeenFrom [] (rows.map (fun r => r.e_id))).Nodup ∧
    (firstSeenFrom [] (rows.map (fun r => r.p_id))).Nodup ∧
    (∀ i, i ∈ firstSeenFrom [] (rows.map (fun r => r.e_id)) ↔
       i ∈ rows.map (fun r => r.e_id)) ∧
    (∀ i, i ∈ firstSeenFrom [] (rows.map (fun r => r.p_id)) ↔
       i ∈ rows.map (fun r => r.p_id)) := by
  refine ⟨?_, ?_, ?_, firstSeenFrom_nodup _ [], firstSeenFrom_nodup _ [], ?_, ?_⟩
  · simpa using depGraphAux_edges rows [] [] [] []
  · simpa using depGraphAux_enodes rows [] [] [] []
  · simpa using depGraphAux_pnodes rows [] [] [] []
  · intro i
    rw [mem_firstSeenFrom]
    simp
  · intro i
    rw [mem_firstSeenFrom]
    simp

/-- Rows used by the C7 witness: two rows share evidence id 10, two rows
share policy id 2. -/
def depRowsExample : List DepRow :=
  [⟨10, "E10", "survey", 2, "P2", "core", "r1"⟩,
   ⟨10, "E10", "survey", 3, "P3", "supporting", "r2"⟩,
   ⟨11, "E11", "study", 2, "P2", "tangential", "r3"⟩]

/-- C7 (witness): the dependency-graph theorem at a concrete row list
with repeated entity ids. -/
theorem dependency_graph_spec_witness :
    (get_dependency_graph_rows depRowsExample).edges = depRowsExample.map depEdge ∧
    ((get_dependency_graph_rows depRowsExample).nodes.filter
        (fun n => n.ntype == "evidence")).map (fun n => n.id) =
      (firstSeenFrom [] (depRowsExample.map (fun r => r.e_id))).map
        (fun i => "e" ++ toString i) ∧
    ((get_dependency_graph_rows depRowsExample).nodes.filter
        (fun n => n.ntype == "policy")).map (fun n => n.id) =
      (firstSeenFrom [] (depRowsExample.map (fun r => r.p_id))).map
        (fun i => "p" ++ toString i) ∧
    (firstSeenFrom [] (depRowsExample.map (fun r => r.e_id))).Nodup ∧
    (firstSeenFrom [] (depRowsExample.map (fun r => r.p_id))).Nodup ∧
    (∀ i, i ∈ firstSeenFrom [] (depRowsExample.map (fun r => r.e_id)) ↔
       i ∈ depRowsExample.map (fun r => r.e_id)) ∧
    (∀ i, i ∈ firstSeenFrom [] (depRowsExample.map (fun r => r.p_id)) ↔
       i ∈ depRowsExample.map (fun r => r.p_id)) :=
  dependency_graph_spec depRowsExample

/-! ## Chunker (`scripts/embed_evidence_chunks.py`) -/

/-- Collapse every maximal whitespace run to one `' '`
(the `re.sub(r"\s+", " ", ...)` step of `_normalize_ws`); the flag
records whether the previous character belonged to a whitespace run. -/
def collapseWsAux : Bool → List Char → List Char
  | _, [] => []
  | prevWs, c :: t =>
    if pyIsSpace c then
      if prevWs then collapseWsAux true t else ' ' :: collapseWsAux true t
    else c :: collapseWsAux false t

/-- Collapse whitespace runs (no run in progress initially). -/
def collapseWs (l : List Char) : List Char :=
  collapseWsAux false l

/-- `_normalize_ws`: strip, then collapse whitespace runs. -/
def _normalize_ws (text : String) : String :=
  String.mk (collapseWs (pyStripList text.toList))

/-- Python's `sub.rfind('.')` as an option: the index of the *last*
occurrence (`none` for Python's `-1`). -/
def pyRFindAux (ch : Char) : List Char → Option Nat
  | [] => none
  | c :: t =>
    match pyRFindAux ch t with
    | some k => some (k + 1)
    | none => if c == ch then some 0 else none

/-- The end position of the window starting at `start`: `end = min(len,
start + target_len)`, snapped back to just after the last `'.'` of the
window when that period sits past 40% of `target_len`.  The float
comparison `last_period > target_len * 0.4` is modelled as
`5 * last_period > 2 * target_len`; at the default `target_len = 480`
the IEEE product `480 * 0.4` is exactly `192.0` and both conditions are
`last_period ≥ 193` on integers. -/
def chunkEnd (t : List Char) (targetLen start : Nat) : Nat :=
  let end0 := min t.length (start + targetLen)
  match pyRFindAux '.' ((t.drop start).take (end0 - start)) with
  | some k => if 5 * k > 2 * targetLen then start + k + 1 else end0
  | none => end0

/-- The `while start < len(text)` loop of `_chunk_text`: append the
stripped window, stop when the window reaches the text end, else restart
at `end - overlap`.  The middle branch guards the well-founded recursion:
it can fire only for parameter choices on which the Python loop does not
advance (and hence never terminates); at the defaults
`(target_len, overlap) = (480, 64)` it is unreachable (every window
advances `start` by at least 130). -/
def chunkLoop (t : List Char) (targetLen overlap start : Nat) : List (List Char) :=
  if h : start < t.length then
    let endF := chunkEnd t targetLen start
    let chunk := pyStripList ((t.drop start).take (endF - start))
    if endF ≥ t.length then [chunk]
    else if endF - overlap ≤ start then [chunk]
    else chunk :: chunkLoop t targetLen overlap (endF - overlap)
  else []
  termination_by t.length - start
  decreasing_by omega

/-- `_chunk_text` from `scripts/embed_evidence_chunks.py`: normalize,
return `[]` for empty text, the whole text when it fits in one window,
else the loop's chunks, re-stripped, with empties dropped.  (The
source's `step` local is dead code and omitted.) -/
def _chunk_text (text : String) (targetLen overlap : Nat) : List String :=
  let t := (_normalize_ws text).toList
  if t.isEmpty then []
  else if t.length ≤ targetLen then [String.mk t]
  else
    (((chunkLoop t targetLen overlap 0).map pyStripList).filter
      (fun c => !c.isEmpty)).map String.mk

/-- A found rfind index lies inside the list. -/
theorem pyRFindAux_lt (ch : Char) (l : List Char) (k : Nat)
    (h : pyRFindAux ch l = some k) : k < l.length := by
  induction l generalizing k with
  | nil => simp [pyRFindAux] at h
  | cons c t ih =>
    unfold pyRFindAux at h
    rcases ht : pyRFindAux ch t with _ | j
    · rw [ht] at h
      by_cases hc : c == ch
      · simp only [hc, if_true, Option.some.injEq] at h
        simp [← h]
      · simp [hc] at h
    · rw [ht] at h
      have := ih j ht
      simp only [Option.some.injEq] at h
      simp [← h, List.length_cons]
      omega

/-- Window bounds at the default parameters: every window ends strictly
after its start, at or before the text end, and — when it does not reach
the text end — at least 65 characters after its start (so the next start
`end - 64` strictly advances). -/
theorem chunkEnd_bounds (t : List Char) (start : Nat) (h : start < t.length) :
    start < chunkEnd t 480 start ∧ chunkEnd t 480 start ≤ t.length ∧
    (chunkEnd t 480 start < t.length → start + 64 < chunkEnd t 480 start) := by
  simp only [chunkEnd]
  have hlen : ((t.drop start).take (min t.length (start + 480) - start)).length =
      min t.length (start + 480) - start := by
    rw [List.length_take, List.length_drop]
    omega
  rcases hf : pyRFindAux '.' ((t.drop start).take (min t.length (start + 480) - start)) with _ | k
  · dsimp only
    omega
  · dsimp only
    have hk := pyRFindAux_lt _ _ _ hf
    rw [hlen] at hk
    split_ifs with hsnap <;> omega

/-- The head of `dropWhile p l` fails `p`. -/
theorem head?_dropWhile_false {α : Type} (p : α → Bool) (l : List α) (x : α)
    (h : (l.dropWhile p).head? = some x) : p x = false := by
  induction l with
  | nil => simp [List.dropWhile] at h
  | cons c t ih =>
    rw [List.dropWhile_cons] at h
    by_cases hc : p c = true
    · rw [if_pos hc] at h
      exact ih h
    · rw [if_neg hc] at h
      simp only [List.head?_cons, Option.some.injEq] at h
      rw [← h]
      exact Bool.eq_false_iff.mpr hc

/-- `dropWhile` is the identity on a list whose head fails `p`. -/
theorem dropWhile_eq_self_of_head {α : Type} (p : α → Bool) (l : List α) (x : α)
    (hh : l.head? = some x) (hx : p x = false) : l.dropWhile p = l := by
  cases l with
  | nil => rfl
  | cons c t =>
    simp only [List.head?_cons, Option.some.injEq] at hh
    subst hh
    simp [List.dropWhile_cons, hx]

/-- `dropWhile` is idempotent. -/
theorem dropWhile_dropWhile {α : Type} (p : α → Bool) (l : List α) :
    (l.dropWhile p).dropWhile p = l.dropWhile p := by
  rcases hh : (l.dropWhile p).head? with _ | x
  · rw [List.head?_eq_none_iff] at hh
    rw [hh]
    rfl
  · exact dropWhile_eq_self_of_head p _ x hh (head?_dropWhile_false p l x hh)

/-- A non-empty suffix has the same last element as the whole list. -/
theorem getLast?_of_suffix {α : Type} {s w : List α} (h : s.IsSuffix w) (hne : s ≠ []) :
    w.getLast? = s.getLast? := by
  rcases h with ⟨a, rfl⟩
  rcases List.eq_nil_or_concat s with rfl | ⟨ys, y, rfl⟩
  · exact absurd rfl hne
  · rw [List.concat_eq_append, ← List.append_assoc, List.getLast?_concat, List.getLast?_concat]

/-- Consing preserves a known last element. -/
theorem getLast?_cons_some {α : Type} {l : List α} {y : α} (a : α)
    (h : l.getLast? = some y) : (a :: l).getLast? = some y := by
  cases l with
  | nil => simp at h
  | cons b t => rw [List.getLast?_cons_cons, h]

/-- The last element of a list is a member. -/
theorem getLast?_mem' {α : Type} {l : List α} {x : α} (h : l.getLast? = some x) :
    x ∈ l := by
  induction l with
  | nil => simp at h
  | cons c t ih =>
    cases t with
    | nil =>
      simp only [List.getLast?_singleton, Option.some.injEq] at h
      simp [h]
    | cons b u =>
      rw [List.getLast?_cons_cons] at h
      exact List.mem_cons_of_mem _ (ih h)

/-- On a list whose last element is not whitespace, `strip` only removes
leading whitespace. -/
theorem pyStripList_eq_dropWhile (l : List Char) (x : Char)
    (hl : l.getLast? = some x) (hx : pyIsSpace x = false) :
    pyStripList l = l.dropWhile pyIsSpace := by
  have hmem : x ∈ l := getLast?_mem' hl
  have hne : l.dropWhile pyIsSpace ≠ [] := by
    intro habs
    have := (List.dropWhile_eq_nil_iff.mp habs) x hmem
    rw [hx] at this
    exact Bool.false_ne_true this
  have hlast : (l.dropWhile pyIsSpace).getLast? = some x := by
    rw [← getLast?_of_suffix (List.dropWhile_suffix pyIsSpace) hne, hl]
  have hrev : (l.dropWhile pyIsSpace).reverse.head? = some x := by
    rw [List.head?_reverse, hlast]
  unfold pyStripList
  rw [dropWhile_eq_self_of_head pyIsSpace _ x hrev hx, List.reverse_reverse]

/-- The last element of a stripped list is not whitespace. -/
theorem pyStripList_getLast?_false (l : List Char) (x : Char)
    (h : (pyStripList l).getLast? = some x) : pyIsSpace x = false := by
  unfold pyStripList at h
  rw [List.getLast?_reverse] at h
  exact head?_dropWhile_false pyIsSpace _ x h

/-- Collapsing whitespace preserves a non-whitespace last character. -/
theorem collapseWsAux_getLast (l : List Char) (x : Char) :
    ∀ flag, l.getLast? = some x → pyIsSpace x = false →
      (collapseWsAux flag l).getLast? = some x := by
  induction l with
  | nil => intro flag h _; simp at h
  | cons c t ih =>
    intro flag h hx
    unfold collapseWsAux
    cases t with
    | nil =>
      simp only [List.getLast?_singleton, Option.some.injEq] at h
      subst h
      simp [hx, collapseWsAux, List.getLast?_singleton]
    | cons b u =>
      rw [List.getLast?_cons_cons] at h
      by_cases hc : pyIsSpace c = true
      · rw [if_pos hc]
        cases flag with
        | true =>
          simp only [if_true]
          exact ih true h hx
        | false =>
          simp only [Bool.false_eq_true, if_false]
          exact getLast?_cons_some _ (ih true h hx)
      · rw [if_neg hc]
        exact getLast?_cons_some _ (ih false h hx)

/-- The loop's chunk list is non-empty and its last chunk is the
stripped final window `text[s':]` for some in-range `s'`. -/
theorem chunkLoop_getLast (t : List Char) :
    ∀ gas start, t.length - start = gas → start < t.length →
      ∃ s', s' < t.length ∧
        (chunkLoop t 480 64 start).getLast? = some (pyStripList (t.drop s')) := by
  intro gas
  induction gas using Nat.strong_induction_on with
  | _ gas ih =>
    intro start hgas hstart
    obtain ⟨hb1, hb2, hb3⟩ := chunkEnd_bounds t start hstart
    rw [chunkLoop, dif_pos hstart]
    dsimp only
    by_cases hend : chunkEnd t 480 start ≥ t.length
    · rw [if_pos hend]
      refine ⟨start, hstart, ?_⟩
      rw [List.take_of_length_le (by rw [List.length_drop]; omega), List.getLast?_singleton]
    · rw [if_neg hend]
      have hb3' := hb3 (by omega)
      have hguard : ¬ (chunkEnd t 480 start - 64 ≤ start) := by omega
      rw [if_neg hguard]
      obtain ⟨s', hs', hrec⟩ :=
        ih (t.length - (chunkEnd t 480 start - 64)) (by omega)
          (chunkEnd t 480 start - 64) rfl (by omega)
      exact ⟨s', hs', getLast?_cons_some _ hrec⟩

/-- Filtering keeps a last element that satisfies the predicate as the
last element. -/
theorem getLast?_filter {α : Type} (f : α → Bool) (l : List α) (x : α)
    (h : l.getLast? = some x) (hf : f x = true) :
    (l.filter f).getLast? = some x := by
  induction l using List.reverseRecOn with
  | nil => simp at h
  | append_singleton ys y ih =>
    rw [List.getLast?_concat] at h
    have hy : y = x := by injection h
    subst hy
    rw [List.filter_append]
    simp [hf, List.getLast?_concat]

/-- C8 (amended): chunking with the default parameters is a total
function (the well-founded definition is the termination proof) whose
chunks are all non-empty; for a *non-empty* normalized text the chunk
list is non-empty and its last chunk is a non-empty suffix of the
normalized text (it ends at the text end); and a non-empty normalized
text of length ≤ 480 yields exactly one chunk, the normalized text
itself.  (An empty normalized text yields zero chunks, not one — see the
counterexample.) -/
theorem chunk_text_spec (text : String) :
    (∀ c ∈ _chunk_text text 480 64, c ≠ "") ∧
    (_normalize_ws text ≠ "" →
      ∃ s, (_chunk_text text 480 64).getLast? = some s ∧ s ≠ "" ∧
        s.toList.IsSuffix (_normalize_ws text).toList) ∧
    (_normalize_ws text ≠ "" → (_normalize_ws text).toList.length ≤ 480 →
      _chunk_text text 480 64 = [_normalize_ws text]) := by
  have hmk : ∀ c' : List Char, c' ≠ [] → String.mk c' ≠ "" := by
    intro c' hc' habs
    exact hc' (congrArg String.data habs)
  have hdata : ∀ s : String, s ≠ "" → s.toList ≠ [] := by
    intro s hs habs
    apply hs
    cases s with
    | mk d => exact congrArg String.mk habs
  refine ⟨?_, ?_, ?_⟩
  · intro c hc
    unfold _chunk_text at hc
    by_cases hE : ((_normalize_ws text).toList).isEmpty = true
    · rw [if_pos hE] at hc
      exact absurd hc (List.not_mem_nil c)
    · rw [if_neg hE] at hc
      by_cases hlen : ((_normalize_ws text).toList).length ≤ 480
      · rw [if_pos hlen] at hc
        rcases List.mem_singleton.mp hc with rfl
        apply hmk
        intro habs
        rw [habs] at hE
        exact hE rfl
      · rw [if_neg hlen] at hc
        rcases List.mem_map.mp hc with ⟨c', hc', rfl⟩
        have := (List.mem_filter.mp hc').2
        apply hmk
        intro habs
        rw [habs] at this
        simp at this
  · intro hne
    have hE : ((_normalize_ws text).toList).isEmpty = false := by
      rcases hT : (_normalize_ws text).toList with _ | ⟨a, u⟩
      · exact absurd hT (hdata _ hne)
      · rfl
    by_cases hlen : ((_normalize_ws text).toList).length ≤ 480
    · refine ⟨_normalize_ws text, ?_, hne, List.suffix_refl _⟩
      unfold _chunk_text
      rw [if_neg (by rw [hE]; exact Bool.false_ne_true), if_pos hlen]
      rfl
    · -- the windowed loop runs; locate the non-whitespace last character
      have hy : pyStripList text.toList ≠ [] := by
        intro habs
        apply hdata _ hne
        show collapseWsAux false (pyStripList text.toList) = []
        rw [habs]
        rfl
      obtain ⟨ys, x₀, hy0⟩ :
          ∃ (L : List Char) (b : Char), pyStripList text.toList = L ++ [b] := by
        rcases List.eq_nil_or_concat (pyStripList text.toList) with h0 | ⟨L, b, h0⟩
        · exact absurd h0 hy
        · exact ⟨L, b, by rw [h0, List.concat_eq_append]⟩
      have hylast : (pyStripList text.toList).getLast? = some x₀ := by
        rw [hy0, List.getLast?_concat]
      have hx₀ : pyIsSpace x₀ = false := pyStripList_getLast?_false _ _ hylast
      have htlast : ((_normalize_ws text).toList).getLast? = some x₀ :=
        collapseWsAux_getLast _ _ false hylast hx₀
      have hlen' : 0 < ((_normalize_ws text).toList).length := by
        rcases hT : (_normalize_ws text).toList with _ | ⟨a, u⟩
        · exact absurd hT (hdata _ hne)
        · simp
      obtain ⟨s', hs', hloop⟩ :=
        chunkLoop_getLast ((_normalize_ws text).toList)
          (((_normalize_ws text).toList).length) 0 (by omega) (by omega)
      set t := (_normalize_ws text).toList with hts
      set y' := t.drop s' with hy'
      have hy'ne : y' ≠ [] := by
        have : y'.length = t.length - s' := List.length_drop s' t
        intro habs
        rw [habs] at this
        simp at this
        omega
      have hy'last : y'.getLast? = some x₀ := by
        rw [← getLast?_of_suffix (List.drop_suffix s' t) hy'ne]
        exact htlast
      have hL0 : pyStripList y' = y'.dropWhile pyIsSpace :=
        pyStripList_eq_dropWhile y' x₀ hy'last hx₀
      have hL0ne : pyStripList y' ≠ [] := by
        rw [hL0]
        intro habs
        have := (List.dropWhile_eq_nil_iff.mp habs) x₀ (getLast?_mem' hy'last)
        rw [hx₀] at this
        exact Bool.false_ne_true this
      have hL0last : (pyStripList y').getLast? = some x₀ := by
        rw [← getLast?_of_suffix (hL0 ▸ List.dropWhile_suffix pyIsSpace) hL0ne]
        exact hy'last
      have hL0strip : pyStripList (pyStripList y') = pyStripList y' := by
        rw [pyStripList_eq_dropWhile _ x₀ hL0last hx₀]
        rw [hL0, dropWhile_dropWhile]
      have hL0suffix : (pyStripList y').IsSuffix t := by
        rw [hL0]
        exact (List.dropWhile_suffix pyIsSpace).trans (List.drop_suffix s' t)
      have hstep1 : ((chunkLoop t 480 64 0).map pyStripList).getLast? =
          some (pyStripList y') := by
        rw [List.getLast?_map, hloop]
        dsimp only [Option.map]
        rw [hL0strip]
      have hstep2 : (((chunkLoop t 480 64 0).map pyStripList).filter
          (fun c => !c.isEmpty)).getLast? = some (pyStripList y') := by
        apply getLast?_filter _ _ _ hstep1
        rcases hL : pyStripList y' with _ | ⟨a, u⟩
        · exact absurd hL hL0ne
        · rfl
      have hstep3 : (((((chunkLoop t 480 64 0).map pyStripList).filter
          (fun c => !c.isEmpty))).map String.mk).getLast? =
          some (String.mk (pyStripList y')) := by
        rw [List.getLast?_map, hstep2]
        rfl
      refine ⟨String.mk (pyStripList y'), ?_, hmk _ hL0ne, hL0suffix⟩
      unfold _chunk_text
      rw [if_neg (by rw [← hts, hE]; exact Bool.false_ne_true), if_neg (by rw [← hts]; exact hlen)]
      rw [← hts]
      exact hstep3
  · intro hne hlen
    have hE : ((_normalize_ws text).toList).isEmpty = false := by
      rcases hT : (_normalize_ws text).toList with _ | ⟨a, u⟩
      · exact absurd hT (hdata _ hne)
      · rfl
    unfold _chunk_text
    rw [if_neg (by rw [hE]; exact Bool.false_ne_true), if_pos hlen]
    rfl

/-- C8 (counterexample): a whitespace-only text has an empty normalized
form (length ≤ 480), yet chunking returns zero chunks, not one chunk
equal to the normalized text. -/
theorem chunk_text_empty_counterexample :
    _normalize_ws " " = "" ∧ (_normalize_ws " ").toList.length ≤ 480 ∧
    _chunk_text " " 480 64 = [] ∧ _chunk_text " " 480 64 ≠ [_normalize_ws " "] := by
  refine ⟨rfl, by decide, rfl, by decide⟩

/-- C8 (witness): the chunking theorem at a short concrete text. -/
theorem chunk_text_spec_witness :
    (∀ c ∈ _chunk_text "flood  risk." 480 64, c ≠ "") ∧
    (_normalize_ws "flood  risk." ≠ "" →
      ∃ s, (_chunk_text "flood  risk." 480 64).getLast? = some s ∧ s ≠ "" ∧
        s.toList.IsSuffix (_normalize_ws "flood  risk.").toList) ∧
    (_normalize_ws "flood  risk." ≠ "" →
      (_normalize_ws "flood  risk.").toList.length ≤ 480 →
      _chunk_text "flood  risk." 480 64 = [_normalize_ws "flood  risk."]) :=
  chunk_text_spec "flood  risk."
